import Mathlib

/-!
Shallow embedding of the energy-aware CPU scheduler in
`src/cpu_scheduling.py` (class `Task`, class `Core`, class `EOTS`).

Modelling conventions:
* real-valued quantities (times, durations, energies) are rationals;
* a Python `float('inf')` deadline is `Option ℚ` with `none` standing for
  plus infinity;
* every call to `time.time()`, `random.uniform` / `random.randint` /
  `random.choice` is replaced by an explicit parameter, so each operation is
  a pure function of its inputs;
* GUI calls (`self.gui.update_log`, Gantt updates, labels) are dropped,
  except that the data they would carry is collected in a
  `CompletionEvent` record.
-/

namespace Sched

/-- The three levels of `FREQUENCY_LEVELS` (the `color` entries are GUI-only
and omitted). -/
inductive FreqLevel where
  | low
  | mid
  | high
deriving DecidableEq

/-- `FREQUENCY_LEVELS[level]["freq"]` in GHz: 0.8 / 1.2 / 2.0. -/
def freqOf : FreqLevel → ℚ
  | .low => 0.8
  | .mid => 1.2
  | .high => 2.0

/-- `FREQUENCY_LEVELS[level]["power"]` in relative units: 0.5 / 1.0 / 2.0. -/
def powerOf : FreqLevel → ℚ
  | .low => 0.5
  | .mid => 1.0
  | .high => 2.0

/-- Body of `Task.calculate_efficient_energy`: pick `(freq, power)` from the
priority and the creation-time slack, then return
`power * ((est_exec_time * (2.0 / freq)) / 1000)`.  A `none` deadline is
`float('inf')`, whose slack is infinite, hence `slack > 200` holds. -/
def calculate_efficient_energy (priority : ℤ) (est_exec_time : ℚ)
    (deadline : Option ℚ) (arrival_time : ℚ) : ℚ :=
  let fp : ℚ × ℚ :=
    if priority = 1 then (freqOf .high, powerOf .high)
    else
      match deadline with
      | none => (freqOf .low, powerOf .low)
      | some d =>
        let slack := d - (arrival_time + est_exec_time)
        if slack > 200 then (freqOf .low, powerOf .low)
        else if slack > 50 then (freqOf .mid, powerOf .mid)
        else (freqOf .high, powerOf .high)
  let exec_time := est_exec_time * (2 / fp.1)
  fp.2 * (exec_time / 1000)

/-- A `Task` object after `__init__` has run.  The mutable result fields
`actual_exec_time` / `start_time` / `finish_time` are not stored here; they
are produced by `execute_task` below (the shallow embedding threads them
explicitly instead of mutating the task). -/
structure Task where
  task_id : ℤ
  priority : ℤ
  est_exec_time : ℚ
  deadline : Option ℚ
  arrival_time : ℚ
  efficient_energy : ℚ
deriving DecidableEq

/-- Python `Task.__init__(task_id, priority, est_exec_time, deadline=None,
arrival_time=None)`.  `deadline if deadline else float('inf')` treats a
falsy argument (`None` or `0`) as unset, likewise
`arrival_time if arrival_time else time.time() * 1000` (the creation
instant is the explicit parameter `now`).  `efficient_energy` is computed
once here. -/
def Task.init (task_id priority : ℤ) (est_exec_time : ℚ)
    (deadline arrival_time : Option ℚ) (now : ℚ) : Task :=
  let d : Option ℚ :=
    match deadline with
    | none => none
    | some v => if v = 0 then none else some v
  let a : ℚ :=
    match arrival_time with
    | none => now
    | some v => if v = 0 then now else v
  { task_id := task_id
    priority := priority
    est_exec_time := est_exec_time
    deadline := d
    arrival_time := a
    efficient_energy := calculate_efficient_energy priority est_exec_time d a }

/-- One element of `Core.completed_tasks` (the dict appended in
`execute_task`). -/
structure CompletedEntry where
  task_id : ℤ
  priority : ℤ
  freq : FreqLevel
  finish_time : ℚ
  actual_exec_time : ℚ
deriving DecidableEq

/-- The mutable state of a `Core` object.  The `lock`, the `gui` back
reference and the `running` flag are concurrency/GUI plumbing with no
bearing on the per-task arithmetic and are not modelled;
`current_task` only exists mid-`execute_task`, which the embedding runs
atomically. -/
structure CoreState where
  core_id : ℕ
  task_queue : List Task
  load_history : List ℚ
  current_freq : FreqLevel
  energy_consumed : ℚ
  deadline_misses : ℕ
  completed_tasks : List CompletedEntry
deriving DecidableEq

/-- `Core.__init__(core_id, gui)`. -/
def Core.init (core_id : ℕ) : CoreState :=
  { core_id := core_id
    task_queue := []
    load_history := []
    current_freq := .low
    energy_consumed := 0
    deadline_misses := 0
    completed_tasks := [] }

/-- `Core.moving_average(window=10)`: `0` on an empty history, otherwise the
mean of `load_history[-window:]`. -/
def moving_average (load_history : List ℚ) (window : ℕ) : ℚ :=
  if load_history = [] then 0
  else
    let recent :=
      if load_history.length > window then
        load_history.drop (load_history.length - window)
      else load_history
    recent.sum / (recent.length : ℚ)

/-- `Core.set_cpu_frequency(task, current_time)`.  `load` is
`moving_average() / 100`; `slack` is `task.deadline - (current_time +
task.est_exec_time)`; an infinite deadline (`none`) makes `slack` infinite,
so `slack > 200` holds and `slack < 50` fails. -/
def set_cpu_frequency (c : CoreState) (t : Task) (current_time : ℚ) : CoreState :=
  let load := moving_average c.load_history 10 / 100
  let freq : FreqLevel :=
    if t.priority = 1 then .high
    else
      match t.deadline with
      | none => if load < 40 then .low else .mid
      | some d =>
        let slack := d - (current_time + t.est_exec_time)
        if slack > 200 then (if load < 40 then .low else .mid)
        else (if slack < 50 then .high else .mid)
  { c with current_freq := freq }

/-- `task.finish_time > task.deadline` with `deadline = float('inf')`
represented by `none` (a finite finish time never exceeds infinity). -/
def missesDeadline (deadline : Option ℚ) (finish : ℚ) : Bool :=
  match deadline with
  | none => false
  | some d => decide (d < finish)

/-- `task.finish_time <= task.deadline` as reported in the
`DeadlineMet=...` field of the completion log line. -/
def deadlineMet (deadline : Option ℚ) (finish : ℚ) : Bool :=
  match deadline with
  | none => true
  | some d => decide (finish ≤ d)

/-- The data carried by the completion boundary event: the
`update_log` line plus the `queue_gantt_update` arguments emitted at the
end of `Core.execute_task`. -/
structure CompletionEvent where
  core_id : ℕ
  task_id : ℤ
  priority : ℤ
  freq : FreqLevel
  start_time : ℚ
  finish_time : ℚ
  actual_exec_time : ℚ
  energy : ℚ
  latency : ℚ
  deadline_met : Bool
deriving DecidableEq

/-- Result of `Core.execute_task`: the updated core plus the emitted
completion event. -/
structure ExecResult where
  core : CoreState
  event : CompletionEvent
deriving DecidableEq

/-- `Core.execute_task(task, current_time)`.  `jitter` stands for the
`random.uniform(-2, 2)` draw and `finish` for the wall clock
`time.time() * 1000` read after the simulated busy-wait; everything else is
the source's arithmetic: `base_time = est_exec_time * (2.0 / freq)`,
`actual_exec_time = base_time + jitter`, `energy = power *
(actual_exec_time / 1000)`, history append, conditional deadline-miss
increment, completed-task append. -/
def execute_task (c : CoreState) (t : Task) (current_time jitter finish : ℚ) :
    ExecResult :=
  let freq := freqOf c.current_freq
  let base_time := t.est_exec_time * (2 / freq)
  let actual := base_time + jitter
  let power := powerOf c.current_freq
  let energy := power * (actual / 1000)
  let core' : CoreState :=
    { c with
      energy_consumed := c.energy_consumed + energy
      load_history := c.load_history ++ [actual]
      deadline_misses :=
        c.deadline_misses + (if missesDeadline t.deadline finish then 1 else 0)
      completed_tasks :=
        c.completed_tasks ++
          [{ task_id := t.task_id
             priority := t.priority
             freq := c.current_freq
             finish_time := finish
             actual_exec_time := actual }] }
  { core := core'
    event :=
      { core_id := c.core_id
        task_id := t.task_id
        priority := t.priority
        freq := c.current_freq
        start_time := current_time
        finish_time := finish
        actual_exec_time := actual
        energy := energy
        latency := finish - t.arrival_time
        deadline_met := deadlineMet t.deadline finish } }

/-- `core.task_queue.append(task)` applied to queue `j` of the queue
vector (a no-op when `j` is out of range, which never happens in the
modelled flows). -/
def appendToCore (qs : List (List Task)) (j : ℕ) (t : Task) : List (List Task) :=
  qs.set j (qs.getD j [] ++ [t])

/-- Index selected by `min(self.cores, key=lambda c: len(c.task_queue))`:
the first (lowest-id) queue of minimal length.  Python's `min` keeps the
earliest element among equal keys. -/
def leastLoadedIdx : List (List Task) → ℕ
  | [] => 0
  | [_] => 0
  | q :: q2 :: rest =>
    let j := leastLoadedIdx (q2 :: rest)
    if ((q2 :: rest).getD j []).length < q.length then j + 1 else 0

/-- The least-loaded placement loop shared by the "Priority Scheduling",
"EDF" and "Hybrid" branches of `EOTS.assign_tasks`: each task in order goes
to the currently shortest queue. -/
def assignLL (tasks : List Task) (qs : List (List Task)) : List (List Task) :=
  match tasks with
  | [] => qs
  | t :: ts => assignLL ts (appendToCore qs (leastLoadedIdx qs) t)

/-- The "Round Robin" branch of `EOTS.assign_tasks`:
`for i, task in enumerate(tasks): self.cores[i % len(self.cores)]
.task_queue.append(task)`, with `i` the running enumeration index. -/
def assignRRAux (qs : List (List Task)) (i : ℕ) : List Task → List (List Task)
  | [] => qs
  | t :: ts => assignRRAux (appendToCore qs (i % qs.length) t) (i + 1) ts

/-- Round-robin assignment starting at enumeration index 0. -/
def assignRR (tasks : List Task) (qs : List (List Task)) : List (List Task) :=
  assignRRAux qs 0 tasks

/-- `tasks.sort(key=lambda t: t.priority, reverse=True)`: Python's sort is
stable, and a stable sort is determined by its key order, so the stable
`List.mergeSort` under the reversed key order is a faithful model. -/
def sortByPriorityDesc (tasks : List Task) : List Task :=
  tasks.mergeSort (fun a b => decide (b.priority ≤ a.priority))

/-- Python `<=` on deadlines-as-floats where `none` is `float('inf')`. -/
def deadlineKeyLE (a b : Option ℚ) : Bool :=
  match a, b with
  | none, none => true
  | none, some _ => false
  | some _, none => true
  | some x, some y => decide (x ≤ y)

/-- `tasks.sort(key=lambda t: t.deadline)`, again as a stable sort. -/
def sortByDeadline (tasks : List Task) : List Task :=
  tasks.mergeSort (fun a b => deadlineKeyLE a.deadline b.deadline)

/-- The four entries of `self.scheduling_algorithms`. -/
inductive Alg where
  | prioritySched
  | edf
  | roundRobin
  | hybrid
deriving DecidableEq

/-- `EOTS.assign_tasks`, applied to the batch `tasks` drained (in FIFO
order) from `self.task_pool` and to the cores' current queues. -/
def assign_tasks (alg : Alg) (tasks : List Task) (qs : List (List Task)) :
    List (List Task) :=
  match alg with
  | .prioritySched => assignLL (sortByPriorityDesc tasks) qs
  | .edf => assignLL (sortByDeadline tasks) qs
  | .roundRobin => assignRR tasks qs
  | .hybrid => assignLL tasks qs

/-- The scheduler-level mutable state of `EOTS` (GUI widgets, Gantt data
and the gui lock omitted). -/
structure EOTSState where
  cores : List CoreState
  task_pool : List Task
  total_energy : ℚ
  total_efficient_energy : ℚ
  tasks_completed : ℕ
  deadline_misses : ℕ
  running : Bool
deriving DecidableEq

/-- `EOTS.update_metrics`: the three aggregate counters are overwritten
with sums over the cores. -/
def update_metrics (s : EOTSState) : EOTSState :=
  { s with
    total_energy := (s.cores.map (fun c => c.energy_consumed)).sum
    tasks_completed := (s.cores.map (fun c => c.load_history.length)).sum
    deadline_misses := (s.cores.map (fun c => c.deadline_misses)).sum }

/-- The random draws consumed per task by `EOTS.generate_tasks`:
`random.choice([0, 1])`, `random.randint(10, 20)`,
`random.randint(50, 150)`. -/
structure TaskRand where
  priority : ℤ
  est : ℚ
  dlOffset : ℚ
deriving DecidableEq

/-- `EOTS.generate_tasks` with the random stream and the wall clock passed
explicitly: task `i` gets priority `rand i |>.priority`, estimate
`rand i |>.est`, and — when the priority is 0 — deadline
`now + rand i |>.dlOffset`; priority-1 tasks get `deadline=None`. -/
def generate_tasks (num_tasks : ℕ) (rand : ℕ → TaskRand) (now : ℚ) :
    List Task :=
  (List.range num_tasks).map fun i =>
    let r := rand i
    let deadline : Option ℚ :=
      if r.priority = 0 then some (now + r.dlOffset) else none
    Task.init (i : ℤ) r.priority r.est deadline none now

/-- What `EOTS.start_simulation` did: the state it built, how many cores
and tasks it created, whether `assign_tasks` raised an uncaught exception
(`i % 0` / `min` of an empty sequence, which happens exactly when the cores
list is empty and the pool is not), and how many per-core threads were
started. -/
structure StartOutcome where
  state : EOTSState
  cores_created : ℕ
  tasks_generated : ℕ
  assign_error : Bool
  threads_started : ℕ
deriving DecidableEq

/-- `EOTS.start_simulation` for a not-already-running scheduler.  The
source validates nothing: `range` of a non-positive count is empty (hence
`Int.toNat`); tasks are generated *before* assignment; when the cores list
is empty and tasks exist, `assign_tasks` raises and the thread-starting
loop is never reached, but the generated tasks already sit in the pool. -/
def start_simulation (num_cores num_tasks : ℤ) (alg : Alg)
    (rand : ℕ → TaskRand) (now : ℚ) : StartOutcome :=
  let cores := (List.range num_cores.toNat).map Core.init
  let tasks := generate_tasks num_tasks.toNat rand now
  if cores.isEmpty && !tasks.isEmpty then
    { state :=
        { cores := cores
          task_pool := tasks
          total_energy := 0
          total_efficient_energy := (tasks.map (fun t => t.efficient_energy)).sum
          tasks_completed := 0
          deadline_misses := 0
          running := true }
      cores_created := cores.length
      tasks_generated := tasks.length
      assign_error := true
      threads_started := 0 }
  else
    let queues := assign_tasks alg tasks (cores.map (fun c => c.task_queue))
    let cores' :=
      List.zipWith (fun c q => { c with task_queue := q }) cores queues
    { state :=
        { cores := cores'
          task_pool := []
          total_energy := 0
          total_efficient_energy := (tasks.map (fun t => t.efficient_energy)).sum
          tasks_completed := 0
          deadline_misses := 0
          running := true }
      cores_created := cores.length
      tasks_generated := tasks.length
      assign_error := false
      threads_started := cores.length }

/-- The nondeterministic inputs of one `Core.run` iteration: which core's
thread runs, the `time.time() * 1000` read when the task is popped, the
jitter draw inside `execute_task`, and the wall clock at completion. -/
structure StepRand where
  coreIdx : ℕ
  now : ℚ
  jitter : ℚ
  finish : ℚ
deriving DecidableEq

/-- One iteration of `Core.run` on core `r.coreIdx` followed by the
`self.gui.update_metrics()` call: pop the head of the queue, call
`set_cpu_frequency`, then `execute_task`, then recompute the aggregates.
An empty queue (the sleep branch of the loop) leaves the state unchanged. -/
def runStep (s : EOTSState) (r : StepRand) : EOTSState :=
  let c := s.cores.getD r.coreIdx (Core.init 0)
  match c.task_queue with
  | [] => s
  | t :: rest =>
    let c1 := set_cpu_frequency { c with task_queue := rest } t r.now
    let res := execute_task c1 t r.now r.jitter r.finish
    update_metrics { s with cores := s.cores.set r.coreIdx res.core }

/-- A run: any interleaving of core-loop iterations after the start. -/
def runSteps (s : EOTSState) (rs : List StepRand) : EOTSState :=
  rs.foldl runStep s

/-- The spec's aggregation invariant: the stored aggregate counters agree
with the sums of the per-core counters. -/
def MetricsConsistent (s : EOTSState) : Prop :=
  s.total_energy = (s.cores.map (fun c => c.energy_consumed)).sum ∧
  s.tasks_completed = (s.cores.map (fun c => c.load_history.length)).sum ∧
  s.deadline_misses = (s.cores.map (fun c => c.deadline_misses)).sum

/-- The tasks whose enumeration position (counting from `i`) is congruent
to `j` modulo `n`, in order: `rrSelect tasks 0 n j` is exactly the set of
tasks "task `i` with `i mod n = j`" that round-robin sends to core `j`. -/
def rrSelect (tasks : List Task) (i n j : ℕ) : List Task :=
  match tasks with
  | [] => []
  | t :: ts => (if i % n = j then [t] else []) ++ rrSelect ts (i + 1) n j

/-- No queue is longer than any other queue by more than 1. -/
def Balanced (qs : List (List Task)) : Prop :=
  ∀ j k, j < qs.length → k < qs.length →
    (qs.getD j []).length ≤ (qs.getD k []).length + 1

/-- The frequency level exactly as the reference-energy claim words it:
"high" if priority = 1; otherwise "low" if slack > 200, "mid" if
50 < slack ≤ 200, and "high" otherwise. -/
def claimLevel (p : ℤ) (slack : ℚ) : FreqLevel :=
  if p = 1 then .high
  else if 200 < slack then .low
  else if 50 < slack ∧ slack ≤ 200 then .mid
  else .high

/-- A concrete best-effort task with id `i`, used in closed
instantiations. -/
def exTask (i : ℕ) : Task :=
  { task_id := (i : ℤ)
    priority := 0
    est_exec_time := 10
    deadline := none
    arrival_time := 0
    efficient_energy := 0 }

/-- Eight concrete tasks with ids 0..7. -/
def exTasks : List Task :=
  [exTask 0, exTask 1, exTask 2, exTask 3, exTask 4, exTask 5, exTask 6, exTask 7]

/-! ### Helper lemmas about queue manipulation -/

theorem length_appendToCore (qs : List (List Task)) (j : ℕ) (t : Task) :
    (appendToCore qs j t).length = qs.length := by
  simp [appendToCore]

theorem getD_appendToCore_self (qs : List (List Task)) (j : ℕ) (t : Task)
    (hj : j < qs.length) :
    (appendToCore qs j t).getD j [] = qs.getD j [] ++ [t] := by
  simp [appendToCore, List.getElem?_set, hj]

theorem getD_appendToCore_ne (qs : List (List Task)) (j k : ℕ) (t : Task)
    (hkj : k ≠ j) :
    (appendToCore qs j t).getD k [] = qs.getD k [] := by
  simp [appendToCore, List.getElem?_set, Ne.symm hkj]

theorem flatten_appendToCore_perm (qs : List (List Task)) (k : ℕ) (t : Task)
    (hk : k < qs.length) :
    (appendToCore qs k t).flatten.Perm (qs.flatten ++ [t]) := by
  induction qs generalizing k with
  | nil => simp at hk
  | cons q rest ih =>
    cases k with
    | zero =>
      simp only [appendToCore, List.getD_cons_zero, List.set_cons_zero,
        List.flatten_cons]
      have h1 : (q ++ [t]) ++ rest.flatten = q ++ ([t] ++ rest.flatten) := by
        simp
      have h2 : (q ++ rest.flatten) ++ [t] = q ++ (rest.flatten ++ [t]) := by
        simp
      rw [h1, h2]
      exact List.Perm.append_left q List.perm_append_comm
    | succ k =>
      have hk' : k < rest.length := by simpa using hk
      have hstep : appendToCore (q :: rest) (k + 1) t
          = q :: appendToCore rest k t := by
        simp [appendToCore]
      rw [hstep, List.flatten_cons, List.flatten_cons]
      have := List.Perm.append_left q (ih k hk')
      simpa using this

theorem leastLoadedIdx_lt (qs : List (List Task)) (h : qs ≠ []) :
    leastLoadedIdx qs < qs.length := by
  induction qs with
  | nil => simp at h
  | cons q rest ih =>
    cases rest with
    | nil => simp [leastLoadedIdx]
    | cons q2 rest' =>
      simp only [leastLoadedIdx]
      split
      · have := ih (by simp)
        simpa using Nat.succ_lt_succ this
      · simp

theorem leastLoadedIdx_min (qs : List (List Task)) (k : ℕ) (hk : k < qs.length) :
    (qs.getD (leastLoadedIdx qs) []).length ≤ (qs.getD k []).length := by
  induction qs generalizing k with
  | nil => simp at hk
  | cons q rest ih =>
    cases rest with
    | nil =>
      cases k with
      | zero => simp [leastLoadedIdx]
      | succ k' => simp at hk
    | cons q2 rest' =>
      simp only [leastLoadedIdx]
      by_cases hlt :
          ((q2 :: rest').getD (leastLoadedIdx (q2 :: rest')) []).length < q.length
      · rw [if_pos hlt]
        cases k with
        | zero => simpa using Nat.le_of_lt hlt
        | succ k' =>
          have hk' : k' < (q2 :: rest').length := by simpa using hk
          simpa using ih k' hk'
      · rw [if_neg hlt]
        push_neg at hlt
        cases k with
        | zero => simp
        | succ k' =>
          have hk' : k' < (q2 :: rest').length := by simpa using hk
          simpa using le_trans hlt (ih k' hk')

/-! ### Least-loaded placement -/

theorem length_assignLL (tasks : List Task) (qs : List (List Task)) :
    (assignLL tasks qs).length = qs.length := by
  induction tasks generalizing qs with
  | nil => rfl
  | cons t ts ih => simp [assignLL, ih, length_appendToCore]

theorem flatten_assignLL_perm (tasks : List Task) (qs : List (List Task))
    (h : qs ≠ []) :
    (assignLL tasks qs).flatten.Perm (qs.flatten ++ tasks) := by
  induction tasks generalizing qs with
  | nil => simp [assignLL]
  | cons t ts ih =>
    have hlt : leastLoadedIdx qs < qs.length := leastLoadedIdx_lt qs h
    have hpos : 0 < qs.length := List.length_pos.mpr h
    have h2 : appendToCore qs (leastLoadedIdx qs) t ≠ [] := by
      rw [← List.length_pos, length_appendToCore]
      exact hpos
    have step1 := ih (appendToCore qs (leastLoadedIdx qs) t) h2
    have step2 := List.Perm.append_right ts
      (flatten_appendToCore_perm qs (leastLoadedIdx qs) t hlt)
    have step3 : (qs.flatten ++ [t]) ++ ts = qs.flatten ++ (t :: ts) := by simp
    rw [step3] at step2
    exact step1.trans step2

theorem balanced_appendToCore (qs : List (List Task)) (t : Task)
    (hne : qs ≠ []) (hbal : Balanced qs) :
    Balanced (appendToCore qs (leastLoadedIdx qs) t) := by
  intro j k hj hk
  rw [length_appendToCore] at hj hk
  have hidx : leastLoadedIdx qs < qs.length := leastLoadedIdx_lt qs hne
  by_cases hjm : j = leastLoadedIdx qs
  · subst hjm
    rw [getD_appendToCore_self qs _ t hidx]
    by_cases hkm : k = leastLoadedIdx qs
    · subst hkm
      rw [getD_appendToCore_self qs _ t hidx]
      simp
    · rw [getD_appendToCore_ne qs _ k t hkm]
      have hmin := leastLoadedIdx_min qs k hk
      simp only [List.length_append, List.length_cons, List.length_nil]
      omega
  · rw [getD_appendToCore_ne qs _ j t hjm]
    by_cases hkm : k = leastLoadedIdx qs
    · subst hkm
      rw [getD_appendToCore_self qs _ t hidx]
      have := hbal j (leastLoadedIdx qs) hj hidx
      simp only [List.length_append, List.length_cons, List.length_nil]
      omega
    · rw [getD_appendToCore_ne qs _ k t hkm]
      exact hbal j k hj hk

theorem balanced_assignLL (tasks : List Task) (qs : List (List Task))
    (hne : qs ≠ []) (hbal : Balanced qs) : Balanced (assignLL tasks qs) := by
  induction tasks generalizing qs with
  | nil => exact hbal
  | cons t ts ih =>
    have hpos : 0 < qs.length := List.length_pos.mpr hne
    have hne' : appendToCore qs (leastLoadedIdx qs) t ≠ [] := by
      rw [← List.length_pos, length_appendToCore]
      exact hpos
    exact ih (appendToCore qs (leastLoadedIdx qs) t) hne'
      (balanced_appendToCore qs t hne hbal)

theorem balanced_replicate (n : ℕ) :
    Balanced (List.replicate n ([] : List Task)) := by
  intro j k hj hk
  rw [List.length_replicate] at hj hk
  simp [List.getElem?_replicate, hj, hk]

theorem flatten_replicate_nil (n : ℕ) :
    (List.replicate n ([] : List Task)).flatten = [] := by
  induction n with
  | zero => rfl
  | succ m ih => simp [List.replicate, ih]

/-! ### Round-robin placement -/

theorem length_assignRRAux (tasks : List Task) (qs : List (List Task)) (i : ℕ) :
    (assignRRAux qs i tasks).length = qs.length := by
  induction tasks generalizing qs i with
  | nil => rfl
  | cons t ts ih => simp [assignRRAux, ih, length_appendToCore]

theorem getD_assignRRAux (tasks : List Task) (qs : List (List Task)) (i j : ℕ)
    (hj : j < qs.length) :
    (assignRRAux qs i tasks).getD j []
      = qs.getD j [] ++ rrSelect tasks i qs.length j := by
  induction tasks generalizing qs i with
  | nil => simp [assignRRAux, rrSelect]
  | cons t ts ih =>
    have hpos : 0 < qs.length := Nat.lt_of_le_of_lt (Nat.zero_le j) hj
    have hmod : i % qs.length < qs.length := Nat.mod_lt i hpos
    have hlen : (appendToCore qs (i % qs.length) t).length = qs.length :=
      length_appendToCore qs (i % qs.length) t
    have hrec := ih (appendToCore qs (i % qs.length) t) (i + 1)
      (by rw [hlen]; exact hj)
    rw [assignRRAux, hrec, hlen]
    by_cases hcase : i % qs.length = j
    · rw [hcase, getD_appendToCore_self qs j t hj]
      simp [rrSelect, hcase]
    · have hne := getD_appendToCore_ne qs (i % qs.length) j t
        (fun hc => hcase hc.symm)
      rw [hne]
      simp [rrSelect, hcase]

theorem rrSelect_get_mem (tasks : List Task) (i n k : ℕ)
    (hk : k < tasks.length) :
    tasks.get ⟨k, hk⟩ ∈ rrSelect tasks i n ((i + k) % n) := by
  induction tasks generalizing i k with
  | nil => simp at hk
  | cons t ts ih =>
    cases k with
    | zero => simp [rrSelect]
    | succ k' =>
      have hk' : k' < ts.length := by simpa using hk
      have hmem := ih (i + 1) k' hk'
      have harith : (i + (k' + 1)) % n = ((i + 1) + k') % n := by
        have : i + (k' + 1) = (i + 1) + k' := by omega
        rw [this]
      rw [harith]
      simp only [rrSelect, List.get_cons_succ]
      exact List.mem_append_right _ hmem

theorem flatten_assignRRAux_perm (tasks : List Task) (qs : List (List Task))
    (i : ℕ) (h : qs ≠ []) :
    (assignRRAux qs i tasks).flatten.Perm (qs.flatten ++ tasks) := by
  induction tasks generalizing qs i with
  | nil => simp [assignRRAux]
  | cons t ts ih =>
    have hpos : 0 < qs.length := List.length_pos.mpr h
    have hmod : i % qs.length < qs.length := Nat.mod_lt i hpos
    have h2 : appendToCore qs (i % qs.length) t ≠ [] := by
      rw [← List.length_pos, length_appendToCore]
      exact hpos
    have step1 := ih (appendToCore qs (i % qs.length) t) (i + 1) h2
    have step2 := List.Perm.append_right ts
      (flatten_appendToCore_perm qs (i % qs.length) t hmod)
    have step3 : (qs.flatten ++ [t]) ++ ts = qs.flatten ++ (t :: ts) := by simp
    rw [step3] at step2
    exact step1.trans step2

/-! ### Metrics aggregation -/

theorem metricsConsistent_update_metrics (s : EOTSState) :
    MetricsConsistent (update_metrics s) :=
  ⟨rfl, rfl, rfl⟩

theorem runStep_preserves_metricsConsistent (s : EOTSState) (r : StepRand)
    (h : MetricsConsistent s) : MetricsConsistent (runStep s r) := by
  rw [runStep]
  cases htq : (s.cores.getD r.coreIdx (Core.init 0)).task_queue with
  | nil => exact h
  | cons t rest => exact metricsConsistent_update_metrics _

theorem map_zipWith_setQueue {β : Type} (f : CoreState → β)
    (cores : List CoreState) (qs : List (List Task))
    (hf : ∀ (c : CoreState) (q : List Task), f { c with task_queue := q } = f c) :
    (List.zipWith (fun c q => { c with task_queue := q }) cores qs).map f
      = List.zipWith (fun c _ => f c) cores qs := by
  induction cores generalizing qs with
  | nil => simp
  | cons c cs ih =>
    cases qs with
    | nil => simp
    | cons q qs' => simp [ih, hf]

theorem sum_zipWith_const_zero {M : Type} [AddCommMonoid M]
    (g : CoreState → M) (cores : List CoreState) (qs : List (List Task))
    (h : ∀ c ∈ cores, g c = 0) :
    (List.zipWith (fun c _ => g c) cores qs).sum = 0 := by
  induction cores generalizing qs with
  | nil => simp
  | cons c cs ih =>
    cases qs with
    | nil => simp
    | cons q qs' =>
      simp [h c (List.mem_cons_self c cs),
        ih qs' (fun x hx => h x (List.mem_cons_of_mem c hx))]

theorem start_simulation_metricsConsistent (num_cores num_tasks : ℤ)
    (alg : Alg) (rand : ℕ → TaskRand) (now : ℚ) :
    MetricsConsistent (start_simulation num_cores num_tasks alg rand now).state := by
  rw [start_simulation]
  split
  · refine ⟨?_, ?_, ?_⟩ <;>
    · refine (List.sum_eq_zero ?_).symm
      intro x hx
      simp only [List.map_map] at hx
      obtain ⟨i, _, rfl⟩ := List.mem_map.mp hx
      rfl
  · refine ⟨?_, ?_, ?_⟩
    · rw [map_zipWith_setQueue (fun c => c.energy_consumed) _ _ (fun c q => rfl)]
      refine (sum_zipWith_const_zero _ _ _ ?_).symm
      intro c hc
      obtain ⟨i, _, rfl⟩ := List.mem_map.mp hc
      rfl
    · rw [map_zipWith_setQueue (fun c => c.load_history.length) _ _
        (fun c q => rfl)]
      refine (sum_zipWith_const_zero _ _ _ ?_).symm
      intro c hc
      obtain ⟨i, _, rfl⟩ := List.mem_map.mp hc
      rfl
    · rw [map_zipWith_setQueue (fun c => c.deadline_misses) _ _
        (fun c q => rfl)]
      refine (sum_zipWith_const_zero _ _ _ ?_).symm
      intro c hc
      obtain ⟨i, _, rfl⟩ := List.mem_map.mp hc
      rfl

theorem runSteps_preserves_metricsConsistent (steps : List StepRand) :
    ∀ (s : EOTSState), MetricsConsistent s →
      MetricsConsistent (runSteps s steps) := by
  induction steps with
  | nil => intro s hs; exact hs
  | cons r rs ih =>
    intro s hs
    exact ih (runStep s r) (runStep_preserves_metricsConsistent s r hs)

/-! ### Frequency-selection characterization -/

theorem set_cpu_frequency_some (c : CoreState) (t : Task) (now d : ℚ)
    (hd : t.deadline = some d) :
    (set_cpu_frequency c t now).current_freq =
      (if t.priority = 1 then FreqLevel.high
       else if 200 < d - (now + t.est_exec_time) then
         (if moving_average c.load_history 10 / 100 < 40 then FreqLevel.low
          else FreqLevel.mid)
       else if d - (now + t.est_exec_time) < 50 then FreqLevel.high
       else FreqLevel.mid) := by
  simp only [set_cpu_frequency, hd]

theorem set_cpu_frequency_none (c : CoreState) (t : Task) (now : ℚ)
    (hd : t.deadline = none) :
    (set_cpu_frequency c t now).current_freq =
      (if t.priority = 1 then FreqLevel.high
       else if moving_average c.load_history 10 / 100 < 40 then FreqLevel.low
       else FreqLevel.mid) := by
  simp only [set_cpu_frequency, hd]

/-! ### Claim theorems -/

/-- C1: the frequency selected by `Core.set_cpu_frequency` is a pure
function of `(priority, slack, load)`, where `load` is the moving average
of the 10 most recent history entries (0 if empty) divided by 100 and
`slack = deadline - (now + estimatedExecutionTime)`: priority 1 always
selects "high"; priority 0 with slack > 200 selects "low" when load < 40
and "mid" when load ≥ 40; priority 0 with slack ≤ 200 selects "high" when
slack < 50 and "mid" when slack ≥ 50. -/
theorem C1_frequency_selection (c : CoreState) (t : Task)
    (now d slack load : ℚ)
    (hd : t.deadline = some d)
    (hslack : slack = d - (now + t.est_exec_time))
    (hload : load = moving_average c.load_history 10 / 100) :
    ((set_cpu_frequency c t now).current_freq =
        (if t.priority = 1 then FreqLevel.high
         else if 200 < slack then
           (if load < 40 then FreqLevel.low else FreqLevel.mid)
         else if slack < 50 then FreqLevel.high
         else FreqLevel.mid)) ∧
    (∀ (c' : CoreState) (t' : Task) (now' d' : ℚ),
        t'.deadline = some d' → t'.priority = t.priority →
        d' - (now' + t'.est_exec_time) = slack →
        moving_average c'.load_history 10 / 100 = load →
        (set_cpu_frequency c' t' now').current_freq
          = (set_cpu_frequency c t now).current_freq) := by
  subst hslack
  subst hload
  refine ⟨set_cpu_frequency_some c t now d hd, ?_⟩
  intro c' t' now' d' hd' hp hs hl
  rw [set_cpu_frequency_some c' t' now' d' hd',
    set_cpu_frequency_some c t now d hd, hp, hs, hl]

/-- Witness for C1: priority 0, slack 300, load 0 selects "low". -/
theorem C1_frequency_selection_witness :
    (set_cpu_frequency (Core.init 0)
        { task_id := 0
          priority := 0
          est_exec_time := 10
          deadline := some 330
          arrival_time := 0
          efficient_energy := 0 } 20).current_freq = FreqLevel.low := by
  have h := (C1_frequency_selection (Core.init 0)
    { task_id := 0
      priority := 0
      est_exec_time := 10
      deadline := some 330
      arrival_time := 0
      efficient_energy := 0 }
    20 330 300 0 rfl (by norm_num)
    (by norm_num [moving_average, Core.init])).1
  rw [h]
  norm_num

/-- C2: for every task built by `Task.__init__` with a finite nonzero
deadline and nonzero arrival time, the stored reference energy equals
`powerCoefficient(level) * ((est * (2 / frequencyScalar(level))) / 1000)`
where the level is "high" for priority 1, else "low" when slack > 200,
"mid" when 50 < slack ≤ 200, "high" otherwise, with
`slack = deadline - (arrivalTime + estimatedExecutionTime)`; the scalar
and power tables are (0.8, 0.5), (1.2, 1.0), (2.0, 2.0). -/
theorem C2_reference_energy (id p : ℤ) (est d arr now : ℚ)
    (hd : d ≠ 0) (ha : arr ≠ 0) :
    (Task.init id p est (some d) (some arr) now).efficient_energy =
      powerOf (claimLevel p (d - (arr + est))) *
        ((est * (2 / freqOf (claimLevel p (d - (arr + est))))) / 1000) ∧
    freqOf FreqLevel.low = 0.8 ∧ powerOf FreqLevel.low = 0.5 ∧
    freqOf FreqLevel.mid = 1.2 ∧ powerOf FreqLevel.mid = 1 ∧
    freqOf FreqLevel.high = 2 ∧ powerOf FreqLevel.high = 2 := by
  have hdd : (Task.init id p est (some d) (some arr) now).efficient_energy
      = calculate_efficient_energy p est (some d) arr := by
    simp [Task.init, hd, ha]
  constructor
  · rw [hdd]
    simp only [calculate_efficient_energy, claimLevel]
    by_cases hp : p = 1
    · simp [hp]
    · simp only [hp, if_false]
      by_cases h200 : 200 < d - (arr + est)
      · simp [h200]
      · have hle : d - (arr + est) ≤ 200 := not_lt.mp h200
        by_cases h50 : 50 < d - (arr + est)
        · simp [h200, h50, hle]
        · simp [h200, h50]
  · norm_num [freqOf, powerOf]

/-- Witness for C2 at priority 0, deadline 1000, arrival 1, estimate 15. -/
theorem C2_reference_energy_witness :
    (Task.init 0 0 15 (some 1000) (some 1) 0).efficient_energy
      = powerOf (claimLevel 0 (1000 - (1 + 15))) *
          ((15 * (2 / freqOf (claimLevel 0 (1000 - (1 + 15))))) / 1000) :=
  (C2_reference_energy 0 0 15 1000 1 0 (by norm_num) (by norm_num)).1

/-- C3: at every observation point of any run — the state produced by
`start_simulation` followed by any interleaving of core-loop iterations,
each ending in `update_metrics` — the stored aggregates equal the sums of
the per-core counters: total energy is the sum of `energy_consumed`, tasks
completed the sum of history lengths, deadline misses the sum of per-core
miss counts. -/
theorem C3_aggregates_equal_sums (num_cores num_tasks : ℤ) (alg : Alg)
    (rand : ℕ → TaskRand) (now : ℚ) (steps : List StepRand) :
    MetricsConsistent
      (runSteps (start_simulation num_cores num_tasks alg rand now).state steps) :=
  runSteps_preserves_metricsConsistent steps _
    (start_simulation_metricsConsistent num_cores num_tasks alg rand now)

/-- C4: round-robin assignment starting from empty queues puts exactly the
tasks whose batch position is congruent to `j` modulo the core count into
queue `j` (in order), and in particular task `i` lands in queue
`i mod coreCount`. -/
theorem C4_round_robin_placement (tasks : List Task) (n : ℕ) (hn : 1 ≤ n)
    (j : ℕ) (hj : j < n) :
    (assignRR tasks (List.replicate n [])).getD j [] = rrSelect tasks 0 n j ∧
    (∀ i (hi : i < tasks.length), i % n = j →
      tasks.get ⟨i, hi⟩ ∈ (assignRR tasks (List.replicate n [])).getD j []) := by
  have hlen : j < (List.replicate n ([] : List Task)).length := by simpa using hj
  have hchar := getD_assignRRAux tasks (List.replicate n []) 0 j hlen
  rw [List.length_replicate] at hchar
  have hrepl : (List.replicate n ([] : List Task)).getD j [] = [] := by
    simp [List.getElem?_replicate, hj]
  rw [hrepl] at hchar
  simp only [List.nil_append] at hchar
  have hchar' : (assignRR tasks (List.replicate n [])).getD j []
      = rrSelect tasks 0 n j := hchar
  refine ⟨hchar', ?_⟩
  intro i hi hij
  rw [hchar']
  have hmem := rrSelect_get_mem tasks 0 n i hi
  rw [Nat.zero_add, hij] at hmem
  exact hmem

/-- Witness for C4: with 4 cores and the 8 tasks of ids 0..7, queue 1
receives exactly tasks 1 and 5. -/
theorem C4_round_robin_placement_witness :
    (1 ≤ 4 ∧ 1 < 4) ∧
    (assignRR exTasks (List.replicate 4 [])).getD 1 [] = rrSelect exTasks 0 4 1 ∧
    rrSelect exTasks 0 4 1 = [exTask 1, exTask 5] :=
  ⟨⟨by norm_num, by norm_num⟩,
    (C4_round_robin_placement exTasks 4 (by norm_num) 1 (by norm_num)).1,
    by norm_num [exTasks, rrSelect]⟩

/-- C5: each of the four assignment policies is exhaustive and exclusive —
starting from empty queues, the concatenation of the resulting per-core
queues is a permutation of the batch (every task in exactly one queue), the
total queued-task count equals the batch size, and the number of queues is
the core count. -/
theorem C5_assignment_exhaustive_exclusive (alg : Alg) (tasks : List Task)
    (n : ℕ) (hn : 1 ≤ n) :
    (assign_tasks alg tasks (List.replicate n [])).flatten.Perm tasks ∧
    ((assign_tasks alg tasks (List.replicate n [])).map
        (fun q => q.length)).sum = tasks.length ∧
    (assign_tasks alg tasks (List.replicate n [])).length = n := by
  have hne : List.replicate n ([] : List Task) ≠ [] := by
    rw [← List.length_pos, List.length_replicate]
    omega
  have hperm : (assign_tasks alg tasks (List.replicate n [])).flatten.Perm tasks := by
    cases alg with
    | prioritySched =>
      have h1 := flatten_assignLL_perm (sortByPriorityDesc tasks)
        (List.replicate n []) hne
      rw [flatten_replicate_nil] at h1
      simp only [List.nil_append] at h1
      exact h1.trans (List.mergeSort_perm tasks _)
    | edf =>
      have h1 := flatten_assignLL_perm (sortByDeadline tasks)
        (List.replicate n []) hne
      rw [flatten_replicate_nil] at h1
      simp only [List.nil_append] at h1
      exact h1.trans (List.mergeSort_perm tasks _)
    | roundRobin =>
      have h1 := flatten_assignRRAux_perm tasks (List.replicate n []) 0 hne
      rw [flatten_replicate_nil] at h1
      simp only [List.nil_append] at h1
      exact h1
    | hybrid =>
      have h1 := flatten_assignLL_perm tasks (List.replicate n []) hne
      rw [flatten_replicate_nil] at h1
      simp only [List.nil_append] at h1
      exact h1
  refine ⟨hperm, ?_, ?_⟩
  · have hlen := hperm.length_eq
    rw [List.length_flatten] at hlen
    exact hlen
  · cases alg with
    | prioritySched => rw [assign_tasks, length_assignLL, List.length_replicate]
    | edf => rw [assign_tasks, length_assignLL, List.length_replicate]
    | roundRobin =>
      rw [assign_tasks, assignRR, length_assignRRAux, List.length_replicate]
    | hybrid => rw [assign_tasks, length_assignLL, List.length_replicate]

/-- Witness for C5: EDF over the 8 example tasks on 3 cores. -/
theorem C5_assignment_exhaustive_exclusive_witness :
    1 ≤ 3 ∧
    (assign_tasks Alg.edf exTasks (List.replicate 3 [])).flatten.Perm exTasks :=
  ⟨by norm_num,
    (C5_assignment_exhaustive_exclusive Alg.edf exTasks 3 (by norm_num)).1⟩

/-- C6: after placing any batch with the least-loaded policy alone,
starting from empty queues, no queue is longer than any other queue by
more than 1; the hybrid branch of `assign_tasks` is exactly this policy. -/
theorem C6_least_loaded_balance (tasks : List Task) (n : ℕ) (hn : 1 ≤ n)
    (j k : ℕ) (hj : j < n) (hk : k < n) :
    ((assignLL tasks (List.replicate n [])).getD j []).length ≤
      ((assignLL tasks (List.replicate n [])).getD k []).length + 1 ∧
    assign_tasks Alg.hybrid tasks (List.replicate n [])
      = assignLL tasks (List.replicate n []) := by
  have hne : List.replicate n ([] : List Task) ≠ [] := by
    rw [← List.length_pos, List.length_replicate]
    omega
  have hbal := balanced_assignLL tasks (List.replicate n []) hne
    (balanced_replicate n)
  have hlen : (assignLL tasks (List.replicate n [])).length = n := by
    rw [length_assignLL, List.length_replicate]
  exact ⟨hbal j k (by rw [hlen]; exact hj) (by rw [hlen]; exact hk), rfl⟩

/-- Witness for C6: 8 tasks on 3 cores. -/
theorem C6_least_loaded_balance_witness :
    (1 ≤ 3 ∧ 0 < 3 ∧ 2 < 3) ∧
    ((assignLL exTasks (List.replicate 3 [])).getD 0 []).length ≤
      ((assignLL exTasks (List.replicate 3 [])).getD 2 []).length + 1 :=
  ⟨⟨by norm_num, by norm_num, by norm_num⟩,
    (C6_least_loaded_balance exTasks 3 (by norm_num) 0 2 (by norm_num)
      (by norm_num)).1⟩

/-- C7: in every execution the completion event's `deadline_met` is true
iff the finish time is at most the deadline; the core's miss counter is
incremented iff the finish time exceeds the (finite) deadline; a task with
no deadline (`none`, i.e. `float('inf')`) always has `deadline_met` and is
never counted as a miss, for any finish time. -/
theorem C7_deadline_accounting (c : CoreState) (t : Task)
    (now jitter finish : ℚ) :
    ((execute_task c t now jitter finish).event.deadline_met = true ↔
        (∀ d, t.deadline = some d → finish ≤ d)) ∧
    ((execute_task c t now jitter finish).core.deadline_misses
        = c.deadline_misses + 1 ↔ (∃ d, t.deadline = some d ∧ d < finish)) ∧
    ((execute_task c t now jitter finish).core.deadline_misses
        = c.deadline_misses ↔ ¬∃ d, t.deadline = some d ∧ d < finish) ∧
    (t.deadline = none →
      (execute_task c t now jitter finish).event.deadline_met = true ∧
      (execute_task c t now jitter finish).core.deadline_misses
        = c.deadline_misses) := by
  cases ht : t.deadline with
  | none => simp [execute_task, deadlineMet, missesDeadline, ht]
  | some d =>
    by_cases hlt : d < finish
    · simp [execute_task, deadlineMet, missesDeadline, ht, hlt, not_le.mpr hlt]
    · have hle : finish ≤ d := not_lt.mp hlt
      simp [execute_task, deadlineMet, missesDeadline, ht, hlt, hle]

/-- C8: the energy charged by `execute_task` is
`powerCoefficient(level) * (actualExecutionTime / 1000)` for the core's
current level, with `actualExecutionTime = est * (2 / frequencyScalar) +
jitter`; for jitter in [-2, 2] and the generator's estimates (≥ 10) the
energy is non-negative, it is added to the core's cumulative energy, and
the cumulative energy never decreases. -/
theorem C8_energy_accounting (c : CoreState) (t : Task)
    (now jitter finish : ℚ)
    (hja : -2 ≤ jitter) (hjb : jitter ≤ 2) (hest : 10 ≤ t.est_exec_time) :
    (execute_task c t now jitter finish).event.actual_exec_time
        = t.est_exec_time * (2 / freqOf c.current_freq) + jitter ∧
    (execute_task c t now jitter finish).event.energy
        = powerOf c.current_freq *
            ((execute_task c t now jitter finish).event.actual_exec_time / 1000) ∧
    0 ≤ (execute_task c t now jitter finish).event.energy ∧
    (execute_task c t now jitter finish).core.energy_consumed
        = c.energy_consumed + (execute_task c t now jitter finish).event.energy ∧
    c.energy_consumed ≤ (execute_task c t now jitter finish).core.energy_consumed := by
  have henergy : 0 ≤ (execute_task c t now jitter finish).event.energy := by
    show 0 ≤ powerOf c.current_freq *
      ((t.est_exec_time * (2 / freqOf c.current_freq) + jitter) / 1000)
    cases c.current_freq <;>
    · simp only [freqOf, powerOf]
      nlinarith [hest, hja]
  refine ⟨rfl, rfl, henergy, rfl, ?_⟩
  have hsum : (execute_task c t now jitter finish).core.energy_consumed
      = c.energy_consumed + (execute_task c t now jitter finish).event.energy := rfl
  rw [hsum]
  linarith [henergy]

/-- Witness for C8: jitter 0, estimate 10 on a fresh core. -/
theorem C8_energy_accounting_witness :
    (-2 ≤ (0 : ℚ) ∧ (0 : ℚ) ≤ 2 ∧ 10 ≤ (exTask 0).est_exec_time) ∧
    0 ≤ (execute_task (Core.init 0) (exTask 0) 0 0 0).event.energy :=
  ⟨⟨by norm_num, by norm_num, by norm_num [exTask]⟩,
    (C8_energy_accounting (Core.init 0) (exTask 0) 0 0 0 (by norm_num)
      (by norm_num) (by norm_num [exTask])).2.2.1⟩

/-- C9 counterexample: with 4 cores and task count −3 (a negative task
count, hence a configuration the claim covers), `start_simulation` reports
no error and starts all 4 core loops — the run does begin, contradicting
the claim that the error is reported synchronously and the run never
begins. -/
theorem C9_counterexample :
    (start_simulation 4 (-3) Alg.roundRobin (fun _ => ⟨0, 10, 50⟩) 1000).assign_error
        = false ∧
    (start_simulation 4 (-3) Alg.roundRobin (fun _ => ⟨0, 10, 50⟩) 1000).threads_started
        = 4 ∧
    (start_simulation 4 (-3) Alg.roundRobin (fun _ => ⟨0, 10, 50⟩) 1000).cores_created
        = 4 := by
  refine ⟨?_, ?_, ?_⟩ <;> rfl

/-- C9 (amended): `start_simulation` performs no configuration validation.
With a negative task count the run begins normally — no error, zero tasks
generated, one thread per created core.  With a non-positive core count
and a positive task count, the tasks are generated into the pool first and
only then does assignment raise an uncaught exception, so the thread loop
is never reached. -/
theorem C9_no_validation (num_cores num_tasks : ℤ) (alg : Alg)
    (rand : ℕ → TaskRand) (now : ℚ) :
    (num_tasks < 0 →
      (start_simulation num_cores num_tasks alg rand now).assign_error = false ∧
      (start_simulation num_cores num_tasks alg rand now).tasks_generated = 0 ∧
      (start_simulation num_cores num_tasks alg rand now).threads_started
          = num_cores.toNat) ∧
    (num_cores ≤ 0 → 0 < num_tasks →
      (start_simulation num_cores num_tasks alg rand now).assign_error = true ∧
      (start_simulation num_cores num_tasks alg rand now).tasks_generated
          = num_tasks.toNat ∧
      (start_simulation num_cores num_tasks alg rand now).threads_started = 0) := by
  constructor
  · intro hneg
    have ht0 : num_tasks.toNat = 0 := Int.toNat_of_nonpos (le_of_lt hneg)
    have htasks : generate_tasks num_tasks.toNat rand now = [] := by
      rw [ht0]
      rfl
    simp [start_simulation, htasks]
  · intro hc0 htpos
    have hc : num_cores.toNat = 0 := Int.toNat_of_nonpos hc0
    have hcores : (List.range num_cores.toNat).map Core.init = [] := by
      rw [hc]
      rfl
    have hlen : (generate_tasks num_tasks.toNat rand now).length
        = num_tasks.toNat := by
      simp [generate_tasks]
    have htne : generate_tasks num_tasks.toNat rand now ≠ [] := by
      intro hcon
      rw [hcon] at hlen
      simp at hlen
      omega
    simp [start_simulation, hcores, htne, hlen]

/-- Witness for the amended C9 at core count 4 / task count −3 and at core
count 0 / task count 5. -/
theorem C9_no_validation_witness :
    ((-3 : ℤ) < 0 ∧
      (start_simulation 4 (-3) Alg.hybrid (fun _ => ⟨0, 10, 50⟩) 7).assign_error
          = false) ∧
    ((0 : ℤ) ≤ 0 ∧ (0 : ℤ) < 5 ∧
      (start_simulation 0 5 Alg.hybrid (fun _ => ⟨0, 10, 50⟩) 7).assign_error
          = true) :=
  ⟨⟨by norm_num,
      ((C9_no_validation 4 (-3) Alg.hybrid (fun _ => ⟨0, 10, 50⟩) 7).1
        (by norm_num)).1⟩,
    ⟨by norm_num, by norm_num,
      ((C9_no_validation 0 5 Alg.hybrid (fun _ => ⟨0, 10, 50⟩) 7).2
        (by norm_num) (by norm_num)).1⟩⟩

/-- C10: `Task.__init__` treats any falsy deadline or arrival argument as
unset — a task created with deadline 0 gets deadline `+∞` (`none`) and can
never be counted as a deadline miss for any finish time, and a task
created with arrival time 0 gets the creation instant `now` as its arrival
time. -/
theorem C10_falsy_defaults (id p : ℤ) (est now : ℚ) (dl arr : Option ℚ) :
    (Task.init id p est (some 0) arr now).deadline = none ∧
    (∀ (c : CoreState) (nowx jitter finish : ℚ),
      (execute_task c (Task.init id p est (some 0) arr now)
          nowx jitter finish).core.deadline_misses = c.deadline_misses ∧
      (execute_task c (Task.init id p est (some 0) arr now)
          nowx jitter finish).event.deadline_met = true) ∧
    (Task.init id p est dl (some 0) now).arrival_time = now := by
  have h1 : (Task.init id p est (some 0) arr now).deadline = none := by
    simp [Task.init]
  refine ⟨h1, ?_, ?_⟩
  · intro c nowx jitter finish
    constructor
    · simp [execute_task, missesDeadline, h1]
    · simp [execute_task, deadlineMet, h1]
  · simp [Task.init]

end Sched
